import Mathlib

/-!
Verification of the conversation-chain migration notebook
(`docs/docs/versions/migrating_chains/conversation_chain.ipynb`).

The notebook defines two small pieces of glue code — a module-level
`history` object with a constant accessor `get_history`, and a
session-keyed `store` dictionary with a lazy accessor
`get_session_history` — and demonstrates two call sequences against the
framework (`ConversationChain` vs. `RunnableWithMessageHistory`).

We embed the Python state as follows.  Python objects have identity, so
`InMemoryChatMessageHistory` instances live in a heap: a history object
is a heap index (`HistId`), and the heap maps each index to the object's
message list.  The `store` dict is an association list from session-id
strings to heap indices.  A dict lookup `store[session_id]` can raise
`KeyError`, so it is embedded as an `Option`-returning operation.
-/

structure Message where
  role : String
  content : String
deriving DecidableEq

abbrev HistId := Nat

/-- The mutable module-level state of the session-keyed example:
the `store` dict (`store = {}` initially) plus the heap of allocated
`InMemoryChatMessageHistory` objects. -/
structure St where
  entries : List (String × HistId)
  heap : List (List Message)
deriving DecidableEq

/-- The initial state of the session-keyed example: `store = {}` and no
history objects allocated yet. -/
def initialSt : St := { entries := [], heap := [] }

/--
Embedding of the notebook's

```python
def get_session_history(session_id: str) -> BaseChatMessageHistory:
    if session_id not in store:
        store[session_id] = InMemoryChatMessageHistory()
    return store[session_id]
```

If `session_id` is not a key of the store, a fresh empty
`InMemoryChatMessageHistory` is allocated (at the next free heap index)
and bound to `session_id`.  The returned value is the final
`store[session_id]` lookup, `none` standing for a `KeyError`.
-/
def get_session_history (session_id : String) (s : St) : Option (HistId × St) :=
  let s1 :=
    if s.entries.lookup session_id = none then
      { entries := (session_id, s.heap.length) :: s.entries,
        heap := s.heap ++ [[]] }
    else s
  (s1.entries.lookup session_id).map (fun h => (h, s1))

/-- Modelled from the spec: the "chat history" object is "an in-memory
list of messages"; adding a message appends it to that object's list
(the heap cell of the given history object), leaving everything else
unchanged. -/
def add_message (s : St) (h : HistId) (m : Message) : St :=
  { s with heap := s.heap.set h ((s.heap.getD h []) ++ [m]) }

/-- The first LCEL example's module-level
`history = InMemoryChatMessageHistory()`: a single object, allocated
once, here at heap index 0 of that example's state. -/
def history : HistId := 0

/-- The state of the first LCEL example right after
`history = InMemoryChatMessageHistory()`: no store, one allocated
(empty) history object. -/
def lcelSt : St := { entries := [], heap := [[]] }

/--
Embedding of the notebook's

```python
def get_history():
    return history
```

It takes no argument, reads no mutable state and performs no write:
every call returns the module-level `history` object unchanged.
-/
def get_history (s : St) : HistId × St := (history, s)

/-! ### Helper lemmas about `get_session_history` -/

theorem lookup_cons_self {v : HistId} {l : List (String × HistId)} (k : String) :
    List.lookup k ((k, v) :: l) = some v := by
  simp [List.lookup]

theorem lookup_cons_ne {v : HistId} {l : List (String × HistId)} {k k' : String}
    (h : k ≠ k') : List.lookup k ((k', v) :: l) = List.lookup k l := by
  have hb : (k == k') = false := beq_false_of_ne h
  simp [List.lookup, hb]

/-- If `session_id` is already a key, `get_session_history` is a pure
lookup: it returns the bound object and leaves the state unchanged. -/
theorem gsh_present {sid : String} {s : St} {h : HistId}
    (hm : s.entries.lookup sid = some h) :
    get_session_history sid s = some (h, s) := by
  simp [get_session_history, hm]

/-- If `session_id` is absent, `get_session_history` allocates a fresh
empty history at index `s.heap.length`, binds it, and returns it. -/
theorem gsh_absent {sid : String} {s : St}
    (hm : s.entries.lookup sid = none) :
    get_session_history sid s =
      some (s.heap.length,
        { entries := (sid, s.heap.length) :: s.entries,
          heap := s.heap ++ [[]] }) := by
  simp only [get_session_history, hm, if_pos]
  simp [lookup_cons_self]

/-- `get_session_history` never hits the `KeyError` case. -/
theorem gsh_isSome (sid : String) (s : St) :
    (get_session_history sid s).isSome := by
  rcases hm : s.entries.lookup sid with _ | h
  · rw [gsh_absent hm]; rfl
  · rw [gsh_present hm]; rfl

/-- After a call, the returned object is the one bound to `session_id`
in the resulting store. -/
theorem gsh_lookup_after {sid : String} {s s' : St} {h : HistId}
    (hrun : get_session_history sid s = some (h, s')) :
    s'.entries.lookup sid = some h := by
  rcases hm : s.entries.lookup sid with _ | h0
  · rw [gsh_absent hm] at hrun
    obtain ⟨h1, h2⟩ := Prod.mk.injEq .. ▸ Option.some.injEq .. ▸ hrun
    subst h2
    rw [← h1]
    exact lookup_cons_self sid
  · rw [gsh_present hm] at hrun
    obtain ⟨h1, h2⟩ := Prod.mk.injEq .. ▸ Option.some.injEq .. ▸ hrun
    subst h2; rw [← h1]; exact hm

/-- A call preserves every existing binding of the store. -/
theorem gsh_preserves_lookup {sid : String} {s s' : St} {h : HistId}
    (hrun : get_session_history sid s = some (h, s'))
    {k : String} {v : HistId} (hk : s.entries.lookup k = some v) :
    s'.entries.lookup k = some v := by
  rcases hm : s.entries.lookup sid with _ | h0
  · rw [gsh_absent hm] at hrun
    obtain ⟨h1, h2⟩ := Prod.mk.injEq .. ▸ Option.some.injEq .. ▸ hrun
    subst h2
    have hne : k ≠ sid := by
      rintro rfl; rw [hk] at hm; exact Option.noConfusion hm
    rw [lookup_cons_ne hne]
    exact hk
  · rw [gsh_present hm] at hrun
    obtain ⟨h1, h2⟩ := Prod.mk.injEq .. ▸ Option.some.injEq .. ▸ hrun
    subst h2; exact hk

/-- Every entry of the store found by lookup is an entry of the list. -/
theorem mem_of_lookup {l : List (String × HistId)} {k : String} {v : HistId}
    (h : l.lookup k = some v) : (k, v) ∈ l := by
  induction l with
  | nil => exact Option.noConfusion h
  | cons p l ih =>
    obtain ⟨k', v'⟩ := p
    by_cases hk : k = k'
    · subst hk
      rw [lookup_cons_self] at h
      obtain rfl := Option.some.injEq .. ▸ h
      exact List.mem_cons_self ..
    · rw [lookup_cons_ne hk] at h
      exact List.mem_cons_of_mem _ (ih h)

/-! ### The store invariant

Python guarantees that each `InMemoryChatMessageHistory()` call produces
a distinct object; in the embedding this is the invariant that every
heap index bound in the store is allocated and that distinct keys are
bound to distinct indices. -/

def StoreInv (s : St) : Prop :=
  (∀ p ∈ s.entries, p.2 < s.heap.length) ∧ (s.entries.map Prod.snd).Nodup

theorem storeInv_initial : StoreInv initialSt := by
  constructor <;> simp [initialSt]

theorem storeInv_lookup_lt {s : St} (hinv : StoreInv s) {k : String} {v : HistId}
    (h : s.entries.lookup k = some v) : v < s.heap.length :=
  hinv.1 _ (mem_of_lookup h)

theorem storeInv_lookup_inj {s : St} (hinv : StoreInv s) {k1 k2 : String} {v1 v2 : HistId}
    (h1 : s.entries.lookup k1 = some v1) (h2 : s.entries.lookup k2 = some v2)
    (hne : k1 ≠ k2) : v1 ≠ v2 := by
  intro he
  have heq := List.inj_on_of_nodup_map hinv.2 (mem_of_lookup h1) (mem_of_lookup h2) he
  exact hne (congrArg Prod.fst heq)

/-- `get_session_history` preserves the store invariant. -/
theorem gsh_storeInv {sid : String} {s s' : St} {h : HistId} (hinv : StoreInv s)
    (hrun : get_session_history sid s = some (h, s')) : StoreInv s' := by
  rcases hm : s.entries.lookup sid with _ | h0
  · rw [gsh_absent hm] at hrun
    obtain ⟨h1, h2⟩ := Prod.mk.injEq .. ▸ Option.some.injEq .. ▸ hrun
    subst h2
    constructor
    · intro p hp
      rcases List.mem_cons.mp hp with hp | hp
      · subst hp
        simp
      · have hlt := hinv.1 p hp
        show p.2 < (s.heap ++ [[]]).length
        rw [List.length_append]
        exact Nat.lt_succ_of_lt hlt
    · refine List.Nodup.cons ?_ hinv.2
      intro hmem
      obtain ⟨p, hp, hp2⟩ := List.mem_map.mp hmem
      exact absurd hp2 (Nat.ne_of_gt (hinv.1 p hp)).symm
  · rw [gsh_present hm] at hrun
    obtain ⟨h1, h2⟩ := Prod.mk.injEq .. ▸ Option.some.injEq .. ▸ hrun
    subst h2; exact hinv

/-! ### Sequences of calls -/

/-- The state change performed by one `get_session_history(sid)` call
(the returned object discarded). -/
def stepStore (s : St) (sid : String) : St :=
  match get_session_history sid s with
  | some (_, s') => s'
  | none => s

/-- The state after a sequence of `get_session_history` calls. -/
def runCalls (s : St) (sids : List String) : St := sids.foldl stepStore s

theorem stepStore_preserves {s : St} {sid k : String} {v : HistId}
    (hk : s.entries.lookup k = some v) :
    (stepStore s sid).entries.lookup k = some v := by
  rcases hrun : get_session_history sid s with _ | ⟨h, s'⟩
  · simpa [stepStore, hrun] using hk
  · simpa [stepStore, hrun] using gsh_preserves_lookup hrun hk

/-! ### The framework pieces, modelled from the spec

`ConversationChain` and `RunnableWithMessageHistory` belong to this
repository's library code, which is not among the provided sources (the
notebook only calls them), so they are modelled from the spec's
description of them. -/

/-- A configuration map as passed to `invoke`: its "configurable" entry
maps string keys (among them "session_id") to string values. -/
structure RunnableConfig where
  configurable : List (String × String)
deriving DecidableEq

/-- Modelled from the spec: `RunnableWithMessageHistory`
"implements sessions via configuration parameters" and, instantiated
with "a callable that returns a chat message history" that takes "a
single argument `session_id`", it resolves the message history for a
call by applying that callable to the value found under the
"session_id" key of the "configurable" entry of the configuration map
passed to `invoke`. -/
def resolveHistory (getSession : String → St → Option (HistId × St))
    (cfg : RunnableConfig) (s : St) : Option (HistId × St) :=
  match cfg.configurable.lookup "session_id" with
  | some sid => getSession sid s
  | none => none

/-- Modelled from the spec: both demonstrated constructions send the
model a history-augmented prompt — the prompt template applied to the
accumulated conversation history and the new input. -/
def buildPrompt (sys : String) (hist : List Message) (input : String) :
    List Message :=
  ⟨"system", sys⟩ :: hist ++ [⟨"human", input⟩]

/-- Modelled from the spec: `ConversationBufferMemory` is "a memory
object" holding the sequence of conversational turns. -/
structure ConversationBufferMemory where
  messages : List Message
deriving DecidableEq

/-- Modelled from the spec: the legacy `Chain` is "a framework-provided
object that bundles a prompt template, a model client, and a memory
object".  The model client is a deterministic oracle
`List Message → String` ("given the same model responses"). -/
structure ConversationChain where
  sys : String
  llm : List Message → String
  memory : ConversationBufferMemory

/-- Modelled from the spec: calling the legacy chain sends the
history-augmented prompt to the model, records the turn in the memory
object, and returns the answer text.  The result is (prompt sent,
answer, updated chain). -/
def ConversationChain.call (c : ConversationChain) (input : String) :
    List Message × String × ConversationChain :=
  let sent := buildPrompt c.sys c.memory.messages input
  let answer := c.llm sent
  (sent, answer,
    { c with memory := ⟨c.memory.messages ++ [⟨"human", input⟩, ⟨"ai", answer⟩]⟩ })

/-- Modelled from the spec: `StrOutputParser` extracts the model
answer's text content. -/
def StrOutputParser (answer : String) : String := answer

/-- Modelled from the spec: the composed runnable `prompt | model |
parser` renders the prompt from the history placeholder and the input,
invokes the model, and parses the output. -/
def lcelChain (sys : String) (llm : List Message → String)
    (hist : List Message) (input : String) : String :=
  StrOutputParser (llm (buildPrompt sys hist input))

/-- Modelled from the spec: the composed-runnable construction — the
inner chain wrapped in `RunnableWithMessageHistory` with a
history-lookup callback.  `hist` is the message history the callback
returns for the session. -/
structure WrappedChain where
  sys : String
  llm : List Message → String
  hist : List Message

/-- Modelled from the spec: `invoke` on the wrapped chain reads the
session history, runs the inner chain on the history-augmented prompt,
appends the new turn to the history, and returns the answer text.  The
result is (prompt sent, answer, updated chain). -/
def WrappedChain.invoke (w : WrappedChain) (input : String) :
    List Message × String × WrappedChain :=
  let sent := buildPrompt w.sys w.hist input
  let answer := lcelChain w.sys w.llm w.hist input
  (sent, answer,
    { w with hist := w.hist ++ [⟨"human", input⟩, ⟨"ai", answer⟩] })

/-- The observable trace of a legacy conversation: for each input in
turn, the prompt sent to the model and the answer returned. -/
def runLegacy (c : ConversationChain) : List String → List (List Message × String)
  | [] => []
  | input :: rest =>
      let r := c.call input
      (r.1, r.2.1) :: runLegacy r.2.2 rest

/-- The observable trace of a composed-runnable conversation. -/
def runLCEL (w : WrappedChain) : List String → List (List Message × String)
  | [] => []
  | input :: rest =>
      let r := w.invoke input
      (r.1, r.2.1) :: runLCEL r.2.2 rest

/-! ### The claims -/

/-- C1: for every `session_id` and every store state,
`get_session_history(session_id)` returns the history object bound to
`session_id` in the store, creating and inserting a new empty
`InMemoryChatMessageHistory` under that key if and only if `session_id`
is not already a key of the store (lazy creation on first lookup). -/
theorem C1_gsh_lazy_creation (sid : String) (s : St) (h : HistId) (s' : St)
    (hrun : get_session_history sid s = some (h, s')) :
    s'.entries.lookup sid = some h ∧
    (s.entries.lookup sid = none ↔
      (h = s.heap.length ∧ s'.entries = (sid, h) :: s.entries ∧
        s'.heap = s.heap ++ [[]] ∧ s'.heap[h]? = some ([] : List Message))) ∧
    ((s.entries.lookup sid).isSome ↔ (s' = s ∧ s.entries.lookup sid = some h)) := by
  rcases hm : s.entries.lookup sid with _ | h0
  · rw [gsh_absent hm] at hrun
    obtain ⟨hh, hs⟩ := Prod.mk.injEq .. ▸ Option.some.injEq .. ▸ hrun
    subst hs
    refine ⟨?_, ?_, ?_⟩
    · rw [← hh]; exact lookup_cons_self sid
    · constructor
      · intro _
        refine ⟨hh.symm, by rw [hh], rfl, ?_⟩
        show (s.heap ++ [[]])[h]? = some ([] : List Message)
        rw [← hh]
        exact List.getElem?_concat_length s.heap []
      · intro _; rfl
    · constructor
      · intro hsome; exact absurd hsome (by simp)
      · rintro ⟨_, hsome⟩; exact Option.noConfusion hsome
  · rw [gsh_present hm] at hrun
    obtain ⟨hh, hs⟩ := Prod.mk.injEq .. ▸ Option.some.injEq .. ▸ hrun
    subst hs
    refine ⟨by rw [← hh]; exact hm, ?_, ?_⟩
    · constructor
      · intro hn; exact Option.noConfusion hn
      · rintro ⟨_, he, _, _⟩
        exact absurd he.symm (List.cons_ne_self _ _)
    · exact ⟨fun _ => ⟨rfl, by rw [hh]⟩, fun _ => rfl⟩

theorem C1_gsh_lazy_creation_witness :
    get_session_history "abc123" initialSt =
      some (0, ⟨[("abc123", 0)], [[]]⟩) ∧
    ((⟨[("abc123", 0)], [[]]⟩ : St).entries.lookup "abc123" = some 0 ∧
      (initialSt.entries.lookup "abc123" = none ↔
        ((0 : HistId) = initialSt.heap.length ∧
          (⟨[("abc123", 0)], [[]]⟩ : St).entries = ("abc123", 0) :: initialSt.entries ∧
          (⟨[("abc123", 0)], [[]]⟩ : St).heap = initialSt.heap ++ [[]] ∧
          (⟨[("abc123", 0)], [[]]⟩ : St).heap[(0 : HistId)]? = some ([] : List Message))) ∧
      ((initialSt.entries.lookup "abc123").isSome ↔
        ((⟨[("abc123", 0)], [[]]⟩ : St) = initialSt ∧
          initialSt.entries.lookup "abc123" = some 0))) := by
  have hrun : get_session_history "abc123" initialSt =
      some (0, ⟨[("abc123", 0)], [[]]⟩) := by rfl
  exact ⟨hrun, C1_gsh_lazy_creation "abc123" initialSt 0 _ hrun⟩

/-- C2: the two demonstrated call sequences are equivalent: given the
same deterministic model oracle and the same starting history, the
legacy construction (`ConversationChain` bundling a prompt template, a
model client, and a `ConversationBufferMemory`) and the
composed-runnable construction (`prompt | model | parser` wrapped with
a history-lookup callback) send the same history-augmented prompt at
every turn and return the same answer text. -/
theorem C2_legacy_lcel_equivalent (sys : String) (llm : List Message → String)
    (h0 : List Message) (inputs : List String) :
    runLegacy ⟨sys, llm, ⟨h0⟩⟩ inputs = runLCEL ⟨sys, llm, h0⟩ inputs := by
  induction inputs generalizing h0 with
  | nil => rfl
  | cons input rest ih =>
    simp only [runLegacy, runLCEL, ConversationChain.call, WrappedChain.invoke,
      lcelChain, StrOutputParser]
    rw [ih]

/-- C3: when the history-wrapping combinator is instantiated with a
one-argument session-lookup callable, `invoke` resolves the message
history by applying that callable to the value under the "session_id"
key of the "configurable" entry of the configuration map. -/
theorem C3_session_id_resolution
    (getSession : String → St → Option (HistId × St))
    (cfg : RunnableConfig) (s : St) (sid : String)
    (hc : cfg.configurable.lookup "session_id" = some sid) :
    resolveHistory getSession cfg s = getSession sid s := by
  simp [resolveHistory, hc]

theorem C3_session_id_resolution_witness :
    (RunnableConfig.mk [("session_id", "abc123")]).configurable.lookup "session_id" =
      some "abc123" ∧
    resolveHistory get_session_history (RunnableConfig.mk [("session_id", "abc123")])
        initialSt =
      get_session_history "abc123" initialSt := by
  have hc : (RunnableConfig.mk [("session_id", "abc123")]).configurable.lookup
      "session_id" = some "abc123" := by rfl
  exact ⟨hc, C3_session_id_resolution get_session_history _ initialSt "abc123" hc⟩

/-- C4: `get_session_history` is idempotent with respect to the store:
a second call immediately after a first call returns the identical
history object the first call returned, and leaves the store mapping
unchanged. -/
theorem C4_gsh_idempotent (sid : String) (s s' : St) (h : HistId)
    (hrun : get_session_history sid s = some (h, s')) :
    get_session_history sid s' = some (h, s') :=
  gsh_present (gsh_lookup_after hrun)

theorem C4_gsh_idempotent_witness :
    get_session_history "abc123" initialSt =
      some (0, ⟨[("abc123", 0)], [[]]⟩) ∧
    get_session_history "abc123" ⟨[("abc123", 0)], [[]]⟩ =
      some (0, ⟨[("abc123", 0)], [[]]⟩) := by
  have hrun : get_session_history "abc123" initialSt =
      some (0, ⟨[("abc123", 0)], [[]]⟩) := by rfl
  exact ⟨hrun, C4_gsh_idempotent "abc123" initialSt _ 0 hrun⟩

/-- C5: the glue functions defined in the notebook are total: for every
string `session_id` and every store state, `get_session_history`
returns a history object (the `KeyError` case of the final dict lookup
is unreachable), and `get_history` returns the module-level `history`
object; neither raises. -/
theorem C5_glue_total (sid : String) (s : St) :
    (get_session_history sid s).isSome = true ∧ get_history s = (history, s) :=
  ⟨gsh_isSome sid s, rfl⟩

/-- C6: the store is initialised empty, and from a state whose store is
empty, the first `get_session_history(session_id)` call returns a
freshly allocated history containing no messages. -/
theorem C6_first_call_empty_history (sid : String) (s : St)
    (hempty : s.entries = []) :
    get_session_history sid s =
      some (s.heap.length, ⟨[(sid, s.heap.length)], s.heap ++ [[]]⟩) ∧
    (s.heap ++ [[]])[s.heap.length]? = some ([] : List Message) := by
  have hm : s.entries.lookup sid = none := by rw [hempty]; rfl
  constructor
  · rw [gsh_absent hm, hempty]
  · exact List.getElem?_concat_length s.heap []

theorem C6_first_call_empty_history_witness :
    initialSt.entries = [] ∧
    (get_session_history "abc123" initialSt =
        some (initialSt.heap.length,
          ⟨[("abc123", initialSt.heap.length)], initialSt.heap ++ [[]]⟩) ∧
      (initialSt.heap ++ [[]])[initialSt.heap.length]? = some ([] : List Message)) :=
  ⟨rfl, C6_first_call_empty_history "abc123" initialSt rfl⟩

/-- C8: `get_history` is a constant function: every call, regardless of
state, returns the identical module-level `history` object and performs
no state change, so every invocation of the first wrapped chain reads
and appends to one shared message history. -/
theorem C8_get_history_constant (s t : St) :
    get_history s = (history, s) ∧ (get_history s).1 = (get_history t).1 :=
  ⟨rfl, rfl⟩

/-- C9: sessions are isolated: two distinct session identifiers resolve
to distinct history objects, and appending a message to the first
session's history leaves the history bound to the second session
unchanged. -/
theorem C9_session_isolation (s1 s2 : String) (s sA sB : St) (h1 h2 : HistId)
    (m : Message) (hinv : StoreInv s) (hne : s1 ≠ s2)
    (c1 : get_session_history s1 s = some (h1, sA))
    (c2 : get_session_history s2 sA = some (h2, sB)) :
    h1 ≠ h2 ∧
    sB.entries.lookup s2 = some h2 ∧
    (add_message sB h1 m).heap[h2]? = sB.heap[h2]? := by
  have hinvA : StoreInv sA := gsh_storeInv hinv c1
  have hA1 : sA.entries.lookup s1 = some h1 := gsh_lookup_after c1
  have hne12 : h1 ≠ h2 := by
    rcases hm : sA.entries.lookup s2 with _ | h2'
    · rw [gsh_absent hm] at c2
      obtain ⟨hh, hs⟩ := Prod.mk.injEq .. ▸ Option.some.injEq .. ▸ c2
      have hlt := storeInv_lookup_lt hinvA hA1
      rw [← hh]
      exact Nat.ne_of_lt hlt
    · rw [gsh_present hm] at c2
      obtain ⟨hh, hs⟩ := Prod.mk.injEq .. ▸ Option.some.injEq .. ▸ c2
      exact hh ▸ storeInv_lookup_inj hinvA hA1 hm hne
  refine ⟨hne12, gsh_lookup_after c2, ?_⟩
  simp only [add_message]
  exact List.getElem?_set_ne hne12

theorem C9_session_isolation_witness :
    StoreInv initialSt ∧
    ("a" : String) ≠ "b" ∧
    get_session_history "a" initialSt = some (0, ⟨[("a", 0)], [[]]⟩) ∧
    get_session_history "b" ⟨[("a", 0)], [[]]⟩ =
      some (1, ⟨[("b", 1), ("a", 0)], [[], []]⟩) ∧
    ((0 : HistId) ≠ 1 ∧
      (⟨[("b", 1), ("a", 0)], [[], []]⟩ : St).entries.lookup "b" = some 1 ∧
      (add_message ⟨[("b", 1), ("a", 0)], [[], []]⟩ 0 ⟨"human", "hi"⟩).heap[(1 : HistId)]? =
        (⟨[("b", 1), ("a", 0)], [[], []]⟩ : St).heap[(1 : HistId)]?) := by
  have hne : ("a" : String) ≠ "b" := by decide
  have c1 : get_session_history "a" initialSt = some (0, ⟨[("a", 0)], [[]]⟩) := by rfl
  have c2 : get_session_history "b" ⟨[("a", 0)], [[]]⟩ =
      some (1, ⟨[("b", 1), ("a", 0)], [[], []]⟩) := by rfl
  exact ⟨storeInv_initial, hne, c1, c2,
    C9_session_isolation "a" "b" initialSt _ _ 0 1 ⟨"human", "hi"⟩
      storeInv_initial hne c1 c2⟩

/-- C10: the store only grows: no sequence of `get_session_history`
calls removes a key or rebinds an existing key — once a session
identifier is mapped to a history object, every later lookup of that
identifier yields that same object. -/
theorem C10_store_monotone (sids : List String) (s : St) (sid : String)
    (h : HistId) (hb : s.entries.lookup sid = some h) :
    (runCalls s sids).entries.lookup sid = some h := by
  induction sids generalizing s with
  | nil => exact hb
  | cons a rest ih => exact ih _ (stepStore_preserves hb)

theorem C10_store_monotone_witness :
    (⟨[("a", 0)], [[]]⟩ : St).entries.lookup "a" = some 0 ∧
    (runCalls ⟨[("a", 0)], [[]]⟩ ["b", "a", "c"]).entries.lookup "a" = some 0 := by
  have hb : (⟨[("a", 0)], [[]]⟩ : St).entries.lookup "a" = some 0 := by rfl
  exact ⟨hb, C10_store_monotone ["b", "a", "c"] _ "a" 0 hb⟩
